import Mathlib

/-!
Verification of the activity-aggregation scripts (project-time-tracker and
time-lens skills): a shallow embedding of the Python sources in Lean 4,
with theorems settling the spec claims about project-identity filtering,
deduplicating merge, timestamp normalization, session clustering,
alternate-path suggestions and per-file error containment.

Conventions of the embedding:
* Python strings are Lean `String`; comparisons and case folding are done
  character-wise on `String.data` (the sources only handle ASCII paths).
* Python floats are embedded as exact rationals `ℚ`.
* `datetime.fromisoformat` is an external stdlib collaborator; it is
  embedded by its result (an optional epoch value, or an optional
  epoch/date pair where the source formats with the parsed offset).
* Filesystem reads are embedded as explicit lists of files and lines; a
  file that would raise `IOError`/`PermissionError` on `open` carries
  `readable = false`.
-/

namespace AgentSkills

/-- Case folding of a character, as Python `str.lower` acts on ASCII. -/
def lowChar (c : Char) : Char := c.toLower

/-- Lower-case a string character-wise (Python `s.lower()` on ASCII data). -/
def lowerStr (s : String) : String := String.mk (s.data.map lowChar)

/-- Contiguous-substring test on character lists; `containsSub pat s` is
Python `pat in s` for strings. -/
def containsSub (pat : List Char) : List Char → Bool
  | [] => pat.isEmpty
  | c :: rest => pat.isPrefixOf (c :: rest) || containsSub pat rest

/-- Python `pat.lower() in s.lower()`: case-insensitive substring test. -/
def strContainsCI (pat s : String) : Bool :=
  containsSub (lowerStr pat).data (lowerStr s).data

/-- Split a character list on the separator `/`, as Python `s.split("/")`. -/
def splitSlash : List Char → List (List Char)
  | [] => [[]]
  | c :: rest =>
    if c = '/' then [] :: splitSlash rest
    else
      match splitSlash rest with
      | [] => [[c]]
      | g :: gs => (c :: g) :: gs

/-- Join character-list components with `/` separators (Python `"/".join`). -/
def joinSlash : List (List Char) → List Char
  | [] => []
  | [g] => g
  | g :: gs => g ++ '/' :: joinSlash gs

/-- Python `os.path.basename`: everything after the last `/` (the whole
string when no `/` occurs). -/
def basenameOf (p : String) : String :=
  String.mk ((splitSlash p.data).getLastD [])

/-- Number of leading slashes that `posixpath.normpath` preserves: one for
an absolute path, two for exactly two leading slashes, one for three or
more, zero for a relative path. -/
def initialSlashes : List Char → Nat
  | '/' :: '/' :: '/' :: _ => 1
  | '/' :: '/' :: _ => 2
  | '/' :: _ => 1
  | _ => 0

/-- One step of `posixpath.normpath`'s component loop: drop empty and `.`
components, append ordinary components, and let `..` pop the previous
component unless the path is relative and empty so far or the previous
component is itself `..`. -/
def normStep (slashes : Nat) (acc : List (List Char)) (comp : List Char) :
    List (List Char) :=
  if comp = [] ∨ comp = ['.'] then acc
  else if comp ≠ ['.', '.'] ∨ (slashes = 0 ∧ acc = []) ∨
      acc.getLastD [] = ['.', '.'] then acc ++ [comp]
  else acc.dropLast

/-- Python `posixpath.normpath`: collapse `.`/`..`/repeated and trailing
slashes without consulting the filesystem. -/
def normpath (p : String) : String :=
  if p.data = [] then "." else
  let slashes := initialSlashes p.data
  let comps := (splitSlash p.data).foldl (normStep slashes) []
  let res := List.replicate slashes '/' ++ joinSlash comps
  if res = [] then "." else String.mk res

/-- Embedding of `cursor_messages.paths_match`: compare normalized paths. -/
def paths_match (p1 p2 : String) : Bool := normpath p1 = normpath p2

/-- Embedding of `claude_messages.path_to_encoded`: replace `/` by `-`,
mapping `/a/b` to `-a-b`. -/
def path_to_encoded (abs_path : String) : String :=
  String.mk (abs_path.data.map fun c => if c = '/' then '-' else c)

/-- Strict lexicographic order on character lists by code point, the order
Python uses to compare strings. -/
def charsLt : List Char → List Char → Bool
  | [], [] => false
  | [], _ :: _ => true
  | _ :: _, [] => false
  | a :: as, b :: bs =>
    if a.toNat < b.toNat then true
    else if b.toNat < a.toNat then false
    else charsLt as bs

/-- Python's `<` on strings: lexicographic by code point. -/
def strLt (s t : String) : Bool := charsLt s.data t.data

/-- Insert a string into a strictly-sorted list, keeping it strictly
sorted; duplicates are dropped. Folding this over a list implements
Python `sorted(set(l))`. -/
def insSortedDedup (x : String) : List String → List String
  | [] => [x]
  | y :: ys =>
    if strLt y x then y :: insSortedDedup x ys
    else if x = y then y :: ys
    else x :: y :: ys

/-- Python `sorted(set(l))` for string lists: strictly increasing, without
duplicates. -/
def sortedDedup (l : List String) : List String := l.foldr insSortedDedup []

/-- Insert with respect to a boolean strict order, keeping duplicates;
folding it implements Python `sorted(l, key=...)` up to stability. -/
def insBy {α : Type} (lt : α → α → Bool) (x : α) : List α → List α
  | [] => [x]
  | y :: ys => if lt y x then y :: insBy lt x ys else x :: y :: ys

/-- Insertion sort by a boolean strict order (Python `sorted`). -/
def sortBy {α : Type} (lt : α → α → Bool) (l : List α) : List α :=
  l.foldr (insBy lt) []

/-- Python `round` on an exact rational: round to the nearest integer,
ties to the even integer (banker's rounding). -/
def roundHalfEven (q : ℚ) : ℤ :=
  let f := ⌊q⌋
  let r := q - f
  if r < 1/2 then f
  else if 1/2 < r then f + 1
  else if f % 2 = 0 then f else f + 1

/-- Proleptic-Gregorian civil date `(year, month, day)` from a count of
days since 1970-01-01 (the standard era-based algorithm; embeds the
calendar arithmetic behind `datetime.fromtimestamp(_, tz=timezone.utc)`). -/
def civilFromDays (z0 : ℤ) : ℤ × ℤ × ℤ :=
  let z := z0 + 719468
  let era : ℤ := Int.fdiv z 146097
  let doe : ℤ := z - era * 146097
  let yoe : ℤ :=
    Int.fdiv (doe - Int.fdiv doe 1460 + Int.fdiv doe 36524 -
      Int.fdiv doe 146096) 365
  let y : ℤ := yoe + era * 400
  let doy : ℤ := doe - (365 * yoe + Int.fdiv yoe 4 - Int.fdiv yoe 100)
  let mp : ℤ := Int.fdiv (5 * doy + 2) 153
  let d : ℤ := doy - Int.fdiv (153 * mp + 2) 5 + 1
  let m : ℤ := mp + (if mp < 10 then 3 else -9)
  (y + (if m ≤ 2 then 1 else 0), m, d)

/-- Decimal digit character for `n % 10`. -/
def digitChar10 (n : ℕ) : Char := Char.ofNat (48 + n % 10)

/-- Two-digit zero-padded rendering (strftime `%m` / `%d`). -/
def pad2 (n : ℕ) : List Char := [digitChar10 (n / 10), digitChar10 n]

/-- Four-digit zero-padded rendering (strftime `%Y` for years up to 9999). -/
def pad4 (n : ℕ) : List Char :=
  [digitChar10 (n / 1000), digitChar10 (n / 100), digitChar10 (n / 10),
    digitChar10 n]

/-- Embedding of
`datetime.fromtimestamp(epoch, tz=timezone.utc).strftime("%Y-%m-%d")`:
the UTC calendar date of an epoch-seconds value, rendered `YYYY-MM-DD`. -/
def utcDateString (epoch : ℚ) : String :=
  let days : ℤ := ⌊epoch / 86400⌋
  let c := civilFromDays days
  String.mk (pad4 c.1.toNat ++ '-' :: pad2 c.2.1.toNat ++ '-' :: pad2 c.2.2.toNat)

/-- Truthiness of an optional string argument, as Python sees
`args.project_path` / `args.filter`: absent (`None`) and the empty string
are falsy. -/
def truthy : Option String → Bool
  | none => false
  | some s => !(s == "")

/-- An element of a list-valued message content; the sources only inspect
`item.get("type")` of the first element (the scripts assume it is a dict). -/
structure JItem where
  jtype : Option String
deriving DecidableEq

/-- The runtime shape of a JSON value as the adapters discriminate it with
`isinstance`: string, number, list, `None`, or any other object (a dict). -/
inductive JVal where
  | null
  | str (s : String)
  | num (q : ℚ)
  | arr (items : List JItem)
  | obj
deriving DecidableEq

namespace ClaudeMsgs

/-- A session-file JSONL entry as `claude_messages.py` reads it. `message`
is `none` when the entry has no `message` key and `some none` when the
message dict has no `content` key (both default to `""` in the source);
`tsParse` is the abstracted result of `datetime.fromisoformat` on the
entry's `timestamp` string: epoch seconds and the `%Y-%m-%d` rendering, or
`none` when parsing raises. -/
structure SessEntry where
  etype : Option String
  cwd : Option String
  message : Option (Option JVal)
  tsParse : Option (ℚ × String)

/-- The content value `obj.get("message", \x7b\x7d).get("content", "")`. -/
def contentOf (e : SessEntry) : JVal :=
  match e.message with
  | none => .str ""
  | some none => .str ""
  | some (some v) => v

/-- Embedding of `claude_messages.is_real_prompt`: a plain-string content
is a real prompt; a non-empty list is real unless its first element is
tagged `tool_result`; everything else (empty list, `None`, dict, number)
is not. -/
def is_real_prompt (e : SessEntry) : Bool :=
  match contentOf e with
  | .str _ => true
  | .arr (i :: _) => !(i.jtype == some "tool_result")
  | _ => false

/-- One line of `~/.claude/history.jsonl`: blank or unparseable lines are
skipped; an entry carries `obj.get("project")` and its `timestamp` value
in epoch milliseconds (`none` when the key is missing; a non-numeric value
would raise uncaught in the source and is out of scope). -/
inductive HistLine where
  | bad
  | entry (project : Option String) (timestamp : Option ℚ)

/-- One step of the `collect_from_history` loop. State: the list of
counted records `(epoch_seconds, date)` in order (each is one
`daily[date] += 1`) and the seen-timestamp list (`seen_ts` as a set:
only membership is ever consulted). Every matching record is counted
unconditionally and its rounded epoch added to `seen_ts`. -/
def histStep (pp : String) (st : List (ℚ × String) × List ℤ) (l : HistLine) :
    List (ℚ × String) × List ℤ :=
  match l with
  | .bad => st
  | .entry proj ts =>
    if !(proj == some pp) then st
    else
      match ts with
      | none => st
      | some ms =>
        let tsf : ℚ := ms / 1000
        (st.1 ++ [(tsf, utcDateString tsf)], st.2 ++ [roundHalfEven tsf])

/-- Embedding of `claude_messages.collect_from_history` (a missing
history file is the empty line list): primary-source collection, filtered
by exact project path, returning the counted records and the
seen-timestamp set. Returns nothing when `project_path` is falsy. -/
def collect_from_history (lines : List HistLine) (project_path : Option String) :
    List (ℚ × String) × List ℤ :=
  if !truthy project_path then ([], [])
  else lines.foldl (histStep (project_path.getD "")) ([], [])

/-- One line of a session `.jsonl` file: blank/malformed lines are
skipped. -/
inductive SessLine where
  | bad
  | entry (e : SessEntry)

/-- A session file; `readable = false` embeds a file whose `open` raises
`IOError`/`PermissionError` (the source swallows this per file). -/
structure SessFile where
  readable : Bool
  lines : List SessLine

/-- One step of the `collect_from_session_files` inner loop: keep only
`type == "user"` entries, filter by `cwd` when a project path is given,
drop non-real prompts and unparseable timestamps, then count the entry
only when its rounded epoch is not yet in `seen_ts`, adding it on
inclusion. -/
def sessStep (pp : Option String) (st : List (ℚ × String) × List ℤ) :
    SessLine → List (ℚ × String) × List ℤ
  | .bad => st
  | .entry e =>
    if !(e.etype == some "user") then st
    else if truthy pp && !(e.cwd == pp) then st
    else if !is_real_prompt e then st
    else
      match e.tsParse with
      | none => st
      | some (epoch, date) =>
        let r := roundHalfEven epoch
        if st.2.contains r then st
        else (st.1 ++ [(epoch, date)], st.2 ++ [r])

/-- Embedding of `claude_messages.collect_from_session_files`: walk every
readable session file of every matched project dir (an unreadable file
contributes nothing and scanning continues), threading the seen-timestamp
set; returns the fallback counted records and the final seen set. -/
def collect_from_session_files (files : List SessFile) (pp : Option String)
    (seen : List ℤ) : List (ℚ × String) × List ℤ :=
  files.foldl
    (fun st f => if f.readable then f.lines.foldl (sessStep pp) st else st)
    ([], seen)

/-- A directory entry of `~/.claude/projects` as `os.scandir` yields it. -/
structure DirEntry where
  name : String
  isDir : Bool
deriving DecidableEq

/-- Order on directory entries used by `sorted(os.scandir(...), key=...)`. -/
def dirEntryLt (a b : DirEntry) : Bool := strLt a.name b.name

/-- The `os.path.join` shape used here: the projects dir joined with a
relative entry name. -/
def pjoin (d n : String) : String := d ++ "/" ++ n

/-- Embedding of `claude_messages.find_project_dirs`: with a truthy
project path, return the single encoded candidate dir when it exists;
otherwise return the name-sorted dirs whose entry name contains the
filter case-insensitively (the filter is matched against the encoded
directory name, not against a basename). -/
def find_project_dirs (dirExists : Bool) (projects_dir : String)
    (entries : List DirEntry) (project_path name_filter : Option String) :
    List String :=
  if !dirExists then []
  else if truthy project_path then
    let encoded := path_to_encoded (project_path.getD "")
    if entries.any fun e => e.name == encoded && e.isDir then
      [pjoin projects_dir encoded]
    else []
  else
    ((sortBy dirEntryLt entries).filter fun e =>
      e.isDir && (truthy name_filter &&
        strContainsCI (name_filter.getD "") e.name)).map
      fun e => pjoin projects_dir e.name

/-- What `main` writes to stdout: a structured error object or a report. -/
inductive MainOut where
  | errorObj (msg : String)
  | report
deriving DecidableEq

/-- The argument-validation gate of `claude_messages.main`: with neither a
truthy `--project-path` nor a truthy `--filter` it prints the structured
error object and returns normally, so the process exit status is 0; the
second component is that exit status. -/
def claude_main_gate (project_path filt : Option String) : MainOut × ℕ :=
  if !truthy project_path && !truthy filt then
    (.errorObj "Provide --project-path or --filter", 0)
  else (.report, 0)

end ClaudeMsgs

namespace CodexMsgs

/-- One line of a Codex rollout `.jsonl` file: `bad` embeds a blank or
unparseable line; an entry carries `obj.get("type")`,
`obj.get("payload", dict()).get("type")`, the payload `cwd`, and the
abstracted `datetime.fromisoformat` result for `obj.get("timestamp", "")`
as an epoch/strftime-date pair (`none` when parsing raises). -/
inductive CodexLine where
  | bad
  | entry (etype : Option String) (payloadType : Option String)
      (payloadCwd : Option String) (tsParse : Option (ℚ × String))

/-- A rollout session file; `readable = false` embeds a file on which
`open` raises (`scan_sessions` has no per-file handler for this). -/
structure CodexFile where
  readable : Bool
  lines : List CodexLine

/-- The `(date, ts_epoch)` pair appended to `session_prompts`: both
present on a successful timestamp parse, both `None` otherwise. -/
def tsToPair : Option (ℚ × String) → Option String × Option ℚ
  | some (e, d) => (some d, some e)
  | none => (none, none)

/-- The per-file line loop of `scan_sessions`: a `session_meta` entry sets
`cwd` (with default `""`); before `cwd` is set other entries are skipped;
once set, a project-path or basename-filter mismatch breaks out of the
file; `event_msg`/`user_message` entries append their timestamp pair. -/
def scanFileLines (pp nf : Option String) (cwd : Option String)
    (prompts : List (Option String × Option ℚ)) :
    List CodexLine → List (Option String × Option ℚ)
  | [] => prompts
  | l :: rest =>
    match l with
    | .bad => scanFileLines pp nf cwd prompts rest
    | .entry etype ptype pcwd ts =>
      if etype == some "session_meta" then
        scanFileLines pp nf (some (pcwd.getD "")) prompts rest
      else
        match cwd with
        | none => scanFileLines pp nf none prompts rest
        | some c =>
          if truthy pp && !(some c == pp) then prompts
          else if truthy nf && !strContainsCI (nf.getD "") (basenameOf c) then
            prompts
          else if etype == some "event_msg" && ptype == some "user_message" then
            scanFileLines pp nf (some c) (prompts ++ [tsToPair ts]) rest
          else scanFileLines pp nf (some c) prompts rest

/-- Accumulated output of `scan_sessions`: one date per `daily` increment
(in processing order; the daily histogram and its total are projections of
this list), the appended timestamps, and the session count. -/
structure ScanResult where
  counted : List String
  timestamps : List ℚ
  sessions_found : ℕ

/-- Fold one file's `session_prompts` into the result: the session count
rises by one for a non-empty prompt list, each truthy date adds a daily
count, each truthy (non-zero) epoch is appended to the timestamps. -/
def accPrompts (st : ScanResult) (prompts : List (Option String × Option ℚ)) :
    ScanResult :=
  prompts.foldl
    (fun s p =>
      let s1 :=
        match p.1 with
        | some d => if !(d == "") then { s with counted := s.counted ++ [d] } else s
        | none => s
      match p.2 with
      | some v => if v ≠ 0 then { s1 with timestamps := s1.timestamps ++ [v] } else s1
      | none => s1)
    { st with sessions_found := st.sessions_found + 1 }

/-- Rat order as a boolean, for the final `sorted(timestamps)`. -/
def ratLt (a b : ℚ) : Bool := decide (a < b)

/-- The file loop of `scan_sessions`: `open` on an unreadable file raises
and nothing catches it, so the whole scan aborts with the error. -/
def scanGo : List CodexFile → (Option String) → (Option String) → ScanResult →
    Except String ScanResult
  | [], _, _, st => .ok st
  | f :: rest, pp, nf, st =>
    if !f.readable then .error "IOError" else
    let prompts := scanFileLines pp nf none [] f.lines
    scanGo rest pp nf (if prompts.isEmpty then st else accPrompts st prompts)

/-- Embedding of `codex_messages.scan_sessions` over the (name-sorted)
rollout files: a missing sessions dir yields the empty result; otherwise
every file is processed in order, and an unreadable file propagates its
`IOError` out of the function (aborting the run). Timestamps are sorted on
return. -/
def scan_sessions (dirExists : Bool) (files : List CodexFile)
    (pp nf : Option String) : Except String ScanResult :=
  if !dirExists then .ok ⟨[], [], 0⟩
  else
    match scanGo files pp nf ⟨[], [], 0⟩ with
    | .error e => .error e
    | .ok st => .ok ⟨st.counted, sortBy ratLt st.timestamps, st.sessions_found⟩

/-- The first parse-able `session_meta` entry of a rollout file decides
its `cwd` in `find_alternate_paths` (the loop breaks there); parse
failures and non-meta entries before it are skipped. -/
def fileMetaCwd : List CodexLine → Option String
  | [] => none
  | .bad :: rest => fileMetaCwd rest
  | .entry etype _ pcwd _ :: rest =>
    if etype == some "session_meta" then some (pcwd.getD "")
    else fileMetaCwd rest

/-- One file's contribution to the alternate-path scan: its session-meta
`cwd` is collected when truthy, different from the requested path, and of
equal basename. -/
def altStep (project_path : String) (acc : List String)
    (f : List CodexLine) : List String :=
  match fileMetaCwd f with
  | some cwd =>
    if !(cwd == "") && (!(cwd == project_path) &&
        basenameOf cwd == basenameOf project_path) then acc ++ [cwd]
    else acc
  | none => acc

/-- Embedding of `codex_messages.find_alternate_paths` over the rollout
files' contents (file reads are the same fallible `open` as in
`scan_sessions`): collect every session-meta `cwd` that is truthy, differs
from the requested path, and shares its basename, then return
`sorted(set(...))`. -/
def find_alternate_paths (dirExists : Bool) (files : List (List CodexLine))
    (project_path : String) : List String :=
  if !dirExists then []
  else sortedDedup (files.foldl (altStep project_path) [])

/-- The report `codex_messages.main` prints. -/
structure CodexReport where
  total_user_messages : ℕ
  counted : List String
  timestamps : List ℚ
  sessions_found : ℕ
  alternate_paths : Option (List String)

/-- The report-assembly tail of `codex_messages.main`: the alternate-path
scan runs only when the daily total is zero and a project path was given,
and its result is attached only when non-empty; it alters nothing else in
the report. -/
def codex_main_result (scan : ScanResult) (storeDirExists : Bool)
    (storeLines : List (List CodexLine)) (pp : Option String) : CodexReport :=
  let total := scan.counted.length
  let alt :=
    if total = 0 && truthy pp then
      let alternates := find_alternate_paths storeDirExists storeLines (pp.getD "")
      if !alternates.isEmpty then some alternates else none
    else none
  ⟨total, scan.counted, scan.timestamps, scan.sessions_found, alt⟩

/-- The argument-validation gate of `codex_messages.main`, identical in
shape to the Claude one: the structured error object is printed and the
function returns normally with process exit status 0. -/
def codex_main_gate (project_path filt : Option String) : ClaudeMsgs.MainOut × ℕ :=
  if !truthy project_path && !truthy filt then
    (.errorObj "Provide --project-path or --filter", 0)
  else (.report, 0)

end CodexMsgs

namespace CursorMsgs

/-- The `timingInfo` dict of a Cursor bubble: the four client-time fields,
each absent or an arbitrary JSON value. -/
structure TimingInfo where
  clientStartTime : Option JVal
  clientRpcSendTime : Option JVal
  clientSettleTime : Option JVal
  clientEndTime : Option JVal

/-- The `createdAt` field as `_extract_bubble_timestamp` discriminates it:
a truthy string that `datetime.fromisoformat` accepts (abstracted by its
epoch result), a truthy string it rejects, or a falsy/non-string value. -/
inductive CreatedAtField where
  | parses (epoch : ℚ)
  | noparse
  | notTruthyStr

/-- A Cursor bubble/message object, restricted to the fields
`_extract_bubble_timestamp` reads. `timingInfo = none` embeds an absent or
non-dict value. -/
structure Bubble where
  createdAt : Option CreatedAtField
  timingInfo : Option TimingInfo
  timestamp : Option JVal

/-- One `timingInfo` field test: used only if the value is a truthy number
strictly above `1_000_000_000_000`, in which case it is taken as epoch
milliseconds and divided by 1000; otherwise the field is skipped. -/
def numOverThreshold : Option JVal → Option ℚ
  | some (.num q) =>
    if q ≠ 0 ∧ (1000000000000 : ℚ) < q then some (q / 1000) else none
  | _ => none

/-- The `timingInfo` fallback chain of `_extract_bubble_timestamp`, in
source priority order. -/
def timingHit : Option TimingInfo → Option ℚ
  | none => none
  | some ti =>
    match numOverThreshold ti.clientStartTime with
    | some r => some r
    | none =>
      match numOverThreshold ti.clientRpcSendTime with
      | some r => some r
      | none =>
        match numOverThreshold ti.clientSettleTime with
        | some r => some r
        | none => numOverThreshold ti.clientEndTime

/-- Embedding of `cursor_messages._extract_bubble_timestamp`: prefer a
parsed `createdAt` ISO string, then the timing fields, then the plain
`timestamp` field — the two numeric paths use a value only when it
exceeds `1_000_000_000_000`, and otherwise yield nothing. -/
def extract_bubble_timestamp (b : Bubble) : Option ℚ :=
  match b.createdAt with
  | some (.parses t) => some t
  | _ =>
    match timingHit b.timingInfo with
    | some t => some t
    | none =>
      match b.timestamp with
      | some (.num q) =>
        if q ≠ 0 ∧ (1000000000000 : ℚ) < q then some (q / 1000) else none
      | _ => none

/-- The per-session filter of `collect_from_global_storage` over a
composer session's workspace path (already URI-decoded by `uri_to_path`):
an exact project path must normalize-match a truthy workspace path; a
name filter must occur case-insensitively in the basename of the
normalized workspace path, which must be non-empty. -/
def cursor_session_selected (pp nf : Option String) (ws_path : String) : Bool :=
  if truthy pp then
    !(ws_path == "") && paths_match ws_path (pp.getD "")
  else if truthy nf then
    let b := if !(ws_path == "") then basenameOf (normpath ws_path) else ""
    !(b == "") && strContainsCI (nf.getD "") b
  else true

end CursorMsgs

namespace GitSessions

/-- A parsed git-log commit: hash, timestamp (epoch seconds of the ISO
8601 commit date), and subject. -/
structure Commit where
  sha : String
  ts : ℚ
  msg : String
deriving DecidableEq

instance : Inhabited Commit := ⟨⟨"", 0, ""⟩⟩

/-- Inactivity-gap threshold in hours (`SESSION_GAP_HOURS = 1.5`). -/
def SESSION_GAP_HOURS : ℚ := 3/2

/-- Per-session overhead buffer in hours (`SESSION_BUFFER = 0.5`). -/
def SESSION_BUFFER : ℚ := 1/2

/-- Minimum session duration in hours (`MIN_SESSION_HOURS = 0.5`). -/
def MIN_SESSION_HOURS : ℚ := 1/2

/-- The gap in hours between two commits,
`(commit["ts"] - current[-1]["ts"]).total_seconds() / 3600`. -/
def gapHours (a b : Commit) : ℚ := (b.ts - a.ts) / 3600

/-- The loop of `detect_sessions`: the current session is
`currInit ++ [last]` (its last element kept separate); a commit whose gap
from `last` exceeds the threshold closes the current session and starts a
new one, otherwise it is appended. -/
def detectAux (currInit : List Commit) (last : Commit) :
    List Commit → List (List Commit)
  | [] => [currInit ++ [last]]
  | c :: rest =>
    if SESSION_GAP_HOURS < gapHours last c then
      (currInit ++ [last]) :: detectAux [] c rest
    else detectAux (currInit ++ [last]) c rest

/-- Embedding of `git_sessions.detect_sessions`: group a chronologically
sorted commit list into sessions split at gaps above
`SESSION_GAP_HOURS`. -/
def detect_sessions : List Commit → List (List Commit)
  | [] => []
  | c :: rest => detectAux [] c rest

/-- Embedding of `git_sessions.session_hours`: raw span is zero for a
single-commit session, else last minus first in hours; the buffer is added
and the minimum enforced. -/
def session_hours (session : List Commit) : ℚ :=
  let raw : ℚ :=
    if session.length = 1 then 0
    else ((session.getLastD default).ts - (session.headD default).ts) / 3600
  max (raw + SESSION_BUFFER) MIN_SESSION_HOURS

/-- Spec-side helper: prepend a commit to the first session of a session
list (used to state the clustering recurrence). -/
def prependFirst (x : Commit) : List (List Commit) → List (List Commit)
  | [] => [[x]]
  | s :: ss => (x :: s) :: ss

/-- Spec-side formula: the raw span of a session in hours, last event
minus first event; zero on a single-event session by arithmetic. -/
def rawSpan (s : List Commit) : ℚ :=
  ((s.getLastD default).ts - (s.headD default).ts) / 3600

end GitSessions

/-- The rounded epochs of a counted-record list, in order: each element is
one daily-histogram increment attributed to that rounded epoch. -/
def roundsOf (l : List (ℚ × String)) : List ℤ :=
  l.map fun c => roundHalfEven c.1

/-- Relation between a merge state and a later merge state of the
fallback-collection fold: the counted list has grown by `new` records
whose rounded epochs are pairwise distinct, absent from the earlier seen
set, and recorded in the later seen set, while the seen set only grew. -/
def MergeExtends (st fin : List (ℚ × String) × List ℤ) : Prop :=
  ∃ new, fin.1 = st.1 ++ new ∧ (∀ r ∈ st.2, r ∈ fin.2) ∧
    (roundsOf new).Nodup ∧
    ∀ r ∈ roundsOf new, r ∉ st.2 ∧ r ∈ fin.2

/-! Helper lemmas about the character-list order and the sorting
helpers. -/

theorem charsLt_irrefl : ∀ l : List Char, charsLt l l = false
  | [] => rfl
  | c :: rest => by
    simp only [charsLt, lt_irrefl, if_false]
    exact charsLt_irrefl rest

theorem charsLt_trans : ∀ a b c : List Char,
    charsLt a b = true → charsLt b c = true → charsLt a c = true
  | [], [], _, h1, _ => by simp [charsLt] at h1
  | [], _ :: _, [], _, h2 => by simp [charsLt] at h2
  | [], _ :: _, _ :: _, _, _ => rfl
  | _ :: _, [], _, h1, _ => by simp [charsLt] at h1
  | _ :: _, _ :: _, [], _, h2 => by simp [charsLt] at h2
  | x :: xs, y :: ys, z :: zs, h1, h2 => by
    simp only [charsLt] at h1 h2 ⊢
    rcases Nat.lt_trichotomy x.toNat y.toNat with hxy | hxy | hxy <;>
      rcases Nat.lt_trichotomy y.toNat z.toNat with hyz | hyz | hyz <;>
      simp_all [Nat.lt_asymm, Nat.lt_irrefl] <;>
      first
        | exact absurd (Nat.lt_trans hxy hyz) (by omega)
        | simp [Nat.lt_trans hxy hyz]
        | omega
        | exact charsLt_trans xs ys zs h1 h2

theorem charsLt_total_eq : ∀ a b : List Char,
    charsLt a b = false → charsLt b a = false → a = b
  | [], [], _, _ => rfl
  | [], _ :: _, h1, _ => by simp [charsLt] at h1
  | _ :: _, [], _, h2 => by simp [charsLt] at h2
  | x :: xs, y :: ys, h1, h2 => by
    simp only [charsLt] at h1 h2
    rcases Nat.lt_trichotomy x.toNat y.toNat with hxy | hxy | hxy
    · simp [hxy] at h1
    · have hx : x = y := Char.eq_of_val_eq (UInt32.ext hxy)
      subst hx
      simp only [lt_irrefl, if_false] at h1 h2
      rw [charsLt_total_eq xs ys h1 h2]
    · simp [hxy, Nat.lt_asymm hxy] at h2

theorem strLt_irrefl (s : String) : strLt s s = false := charsLt_irrefl s.data

theorem strLt_trans {s t u : String} (h1 : strLt s t = true)
    (h2 : strLt t u = true) : strLt s u = true :=
  charsLt_trans s.data t.data u.data h1 h2

theorem strLt_total_eq {s t : String} (h1 : strLt s t = false)
    (h2 : strLt t s = false) : s = t := by
  have h := charsLt_total_eq s.data t.data h1 h2
  cases s; cases t; cases h; rfl

theorem mem_insSortedDedup (x y : String) :
    ∀ l : List String, y ∈ insSortedDedup x l ↔ y = x ∨ y ∈ l
  | [] => by simp [insSortedDedup]
  | z :: zs => by
    simp only [insSortedDedup]
    cases h1 : strLt z x
    · by_cases h2 : x = z
      · subst h2
        simp
      · simp [h2]
        try tauto
    · simp [mem_insSortedDedup x y zs]
      try tauto

theorem pairwise_insSortedDedup (x : String) :
    ∀ l : List String, l.Pairwise (fun a b => strLt a b = true) →
      (insSortedDedup x l).Pairwise (fun a b => strLt a b = true)
  | [], _ => by simp [insSortedDedup]
  | z :: zs, h => by
    rw [List.pairwise_cons] at h
    simp only [insSortedDedup]
    by_cases h1 : strLt z x = true
    · rw [if_pos h1, List.pairwise_cons]
      refine ⟨fun b hb => ?_, pairwise_insSortedDedup x zs h.2⟩
      rcases (mem_insSortedDedup x b zs).1 hb with hb | hb
      · exact hb ▸ h1
      · exact h.1 b hb
    · rw [if_neg h1]
      by_cases h2 : x = z
      · rw [if_pos h2, List.pairwise_cons]
        exact h
      · rw [if_neg h2, List.pairwise_cons]
        have hxz : strLt x z = true := by
          cases h3 : strLt x z
          · exact absurd (strLt_total_eq h3 (by simpa using h1)) h2
          · rfl
        refine ⟨fun b hb => ?_, List.pairwise_cons.2 h⟩
        rcases List.mem_cons.1 hb with hb | hb
        · exact hb ▸ hxz
        · exact strLt_trans hxz (h.1 b hb)

theorem sortedDedup_cons (z : String) (zs : List String) :
    sortedDedup (z :: zs) = insSortedDedup z (sortedDedup zs) := rfl

theorem mem_sortedDedup (y : String) :
    ∀ l : List String, y ∈ sortedDedup l ↔ y ∈ l
  | [] => Iff.rfl
  | z :: zs => by
    rw [sortedDedup_cons, mem_insSortedDedup, mem_sortedDedup y zs,
      List.mem_cons]

theorem sorted_sortedDedup :
    ∀ l : List String, (sortedDedup l).Pairwise (fun a b => strLt a b = true)
  | [] => List.Pairwise.nil
  | z :: zs => pairwise_insSortedDedup z _ (sorted_sortedDedup zs)

theorem mem_insBy {α : Type} (lt : α → α → Bool) (x y : α) :
    ∀ l : List α, y ∈ insBy lt x l ↔ y = x ∨ y ∈ l
  | [] => by simp [insBy]
  | z :: zs => by
    simp only [insBy]
    cases h1 : lt z x
    · simp
    · simp [mem_insBy lt x y zs]
      tauto

theorem sortBy_cons {α : Type} (lt : α → α → Bool) (z : α) (zs : List α) :
    sortBy lt (z :: zs) = insBy lt z (sortBy lt zs) := rfl

theorem mem_sortBy {α : Type} (lt : α → α → Bool) (y : α) :
    ∀ l : List α, y ∈ sortBy lt l ↔ y ∈ l
  | [] => Iff.rfl
  | z :: zs => by
    rw [sortBy_cons, mem_insBy, mem_sortBy lt y zs, List.mem_cons]

/-! Lemmas about the session clusterer. -/

theorem detectAux_flatten :
    ∀ (rest currInit : List GitSessions.Commit) (last : GitSessions.Commit),
      (GitSessions.detectAux currInit last rest).flatten =
        currInit ++ last :: rest
  | [], ci, last => by simp [GitSessions.detectAux]
  | c :: rest, ci, last => by
    simp only [GitSessions.detectAux]
    by_cases h : GitSessions.SESSION_GAP_HOURS < GitSessions.gapHours last c
    · simp [h, detectAux_flatten rest [] c]
    · simp [h, detectAux_flatten rest (ci ++ [last]) c]

theorem detectAux_ne_nil :
    ∀ (rest currInit : List GitSessions.Commit) (last : GitSessions.Commit)
      (s : List GitSessions.Commit),
      s ∈ GitSessions.detectAux currInit last rest → s ≠ []
  | [], ci, last, s, hs => by
    simp only [GitSessions.detectAux, List.mem_singleton] at hs
    subst hs
    simp
  | c :: rest, ci, last, s, hs => by
    simp only [GitSessions.detectAux] at hs
    by_cases h : GitSessions.SESSION_GAP_HOURS < GitSessions.gapHours last c
    · rw [if_pos h, List.mem_cons] at hs
      rcases hs with hs | hs
      · subst hs; simp
      · exact detectAux_ne_nil rest [] c s hs
    · rw [if_neg h] at hs
      exact detectAux_ne_nil rest (ci ++ [last]) c s hs

theorem detectAux_prepend (x : GitSessions.Commit) :
    ∀ (rest currInit : List GitSessions.Commit) (last : GitSessions.Commit),
      GitSessions.detectAux (x :: currInit) last rest =
        GitSessions.prependFirst x (GitSessions.detectAux currInit last rest)
  | [], ci, last => by simp [GitSessions.detectAux, GitSessions.prependFirst]
  | c :: rest, ci, last => by
    simp only [GitSessions.detectAux]
    by_cases h : GitSessions.SESSION_GAP_HOURS < GitSessions.gapHours last c
    · simp [h, GitSessions.prependFirst]
    · have := detectAux_prepend x rest (ci ++ [last]) c
      simp only [h, if_false, List.cons_append] at this ⊢
      exact this

/-- C10: `detect_sessions` partitions its input: the returned sessions,
concatenated in order, are exactly the input commit list (so every commit
lies in exactly one session, none is dropped or duplicated, and
within-session order is preserved), and no returned session is empty. -/
theorem claim_C10_partition (commits : List GitSessions.Commit) :
    (GitSessions.detect_sessions commits).flatten = commits ∧
    ∀ s ∈ GitSessions.detect_sessions commits, s ≠ [] := by
  cases commits with
  | nil => exact ⟨rfl, by simp [GitSessions.detect_sessions]⟩
  | cons c rest =>
    exact ⟨detectAux_flatten rest [] c,
      fun s hs => detectAux_ne_nil rest [] c s hs⟩

/-- C5: the session clusterer starts with the first event and closes the
current session exactly when the gap to the previous event exceeds the
threshold: a singleton input is one singleton session, and on
`a :: b :: rest` the result splits before `b` precisely when
`gapHours a b` exceeds `SESSION_GAP_HOURS`, else `a` joins `b`'s first
session; in particular events at `T, T+1h, T+3h, T+3h10m` with the 1.5h
threshold give exactly the two sessions `[T, T+1h]` and
`[T+3h, T+3h10m]`. -/
theorem claim_C5_clustering :
    (∀ a : GitSessions.Commit, GitSessions.detect_sessions [a] = [[a]]) ∧
    (∀ (a b : GitSessions.Commit) (rest : List GitSessions.Commit),
      GitSessions.detect_sessions (a :: b :: rest) =
        if GitSessions.SESSION_GAP_HOURS < GitSessions.gapHours a b then
          [a] :: GitSessions.detect_sessions (b :: rest)
        else
          GitSessions.prependFirst a (GitSessions.detect_sessions (b :: rest))) ∧
    (∀ (T : ℚ) (s1 s2 s3 s4 m1 m2 m3 m4 : String),
      GitSessions.detect_sessions
        [⟨s1, T, m1⟩, ⟨s2, T + 3600, m2⟩, ⟨s3, T + 10800, m3⟩,
          ⟨s4, T + 11400, m4⟩] =
        [[⟨s1, T, m1⟩, ⟨s2, T + 3600, m2⟩],
          [⟨s3, T + 10800, m3⟩, ⟨s4, T + 11400, m4⟩]]) := by
  have hrec : ∀ (a b : GitSessions.Commit) (rest : List GitSessions.Commit),
      GitSessions.detect_sessions (a :: b :: rest) =
        if GitSessions.SESSION_GAP_HOURS < GitSessions.gapHours a b then
          [a] :: GitSessions.detect_sessions (b :: rest)
        else
          GitSessions.prependFirst a (GitSessions.detect_sessions (b :: rest)) := by
    intro a b rest
    show GitSessions.detectAux [] a (b :: rest) = _
    simp only [GitSessions.detectAux, GitSessions.detect_sessions]
    by_cases h : GitSessions.SESSION_GAP_HOURS < GitSessions.gapHours a b
    · simp [h]
    · simp only [h, if_false, List.nil_append]
      exact detectAux_prepend a rest [] b
  refine ⟨fun a => rfl, hrec, fun T s1 s2 s3 s4 m1 m2 m3 m4 => ?_⟩
  have g1 : ¬ GitSessions.SESSION_GAP_HOURS <
      GitSessions.gapHours ⟨s1, T, m1⟩ ⟨s2, T + 3600, m2⟩ := by
    simp only [GitSessions.gapHours, GitSessions.SESSION_GAP_HOURS]
    rw [show (T + 3600 - T) / 3600 = (1 : ℚ) by ring]
    norm_num
  have g2 : GitSessions.SESSION_GAP_HOURS <
      GitSessions.gapHours ⟨s2, T + 3600, m2⟩ ⟨s3, T + 10800, m3⟩ := by
    simp only [GitSessions.gapHours, GitSessions.SESSION_GAP_HOURS]
    rw [show (T + 10800 - (T + 3600)) / 3600 = (2 : ℚ) by ring]
    norm_num
  have g3 : ¬ GitSessions.SESSION_GAP_HOURS <
      GitSessions.gapHours ⟨s3, T + 10800, m3⟩ ⟨s4, T + 11400, m4⟩ := by
    simp only [GitSessions.gapHours, GitSessions.SESSION_GAP_HOURS]
    rw [show (T + 11400 - (T + 10800)) / 3600 = (1 / 6 : ℚ) by ring]
    norm_num
  rw [hrec, if_neg g1, hrec, if_pos g2, hrec, if_neg g3]
  rfl

/-- C6: the duration of every session the clusterer can produce (any
non-empty commit list) is `max (rawSpan + SESSION_BUFFER)
MIN_SESSION_HOURS`, where the raw span (last minus first event, in hours)
is zero for a single-event session; with the default buffer 0.5h and
minimum 0.5h a single-event session reports exactly 0.5 hours. -/
theorem claim_C6_duration :
    (∀ (c : GitSessions.Commit) (rest : List GitSessions.Commit),
      GitSessions.session_hours (c :: rest) =
        max (GitSessions.rawSpan (c :: rest) + GitSessions.SESSION_BUFFER)
          GitSessions.MIN_SESSION_HOURS) ∧
    (∀ c : GitSessions.Commit, GitSessions.session_hours [c] = 1 / 2) := by
  have hmain : ∀ (c : GitSessions.Commit) (rest : List GitSessions.Commit),
      GitSessions.session_hours (c :: rest) =
        max (GitSessions.rawSpan (c :: rest) + GitSessions.SESSION_BUFFER)
          GitSessions.MIN_SESSION_HOURS := by
    intro c rest
    cases rest with
    | nil =>
      have hc : ([c].getLastD (default : GitSessions.Commit)) = c := rfl
      simp only [GitSessions.session_hours, GitSessions.rawSpan,
        List.length_singleton, if_true, hc, List.headD_cons]
      rw [show (c.ts - c.ts) / 3600 = (0 : ℚ) by ring]
    | cons d ds =>
      simp only [GitSessions.session_hours, GitSessions.rawSpan,
        List.length_cons]
      rw [if_neg (by omega)]
  refine ⟨hmain, fun c => ?_⟩
  rw [hmain c []]
  have hc : ([c].getLastD (default : GitSessions.Commit)) = c := rfl
  simp only [GitSessions.rawSpan, GitSessions.SESSION_BUFFER,
    GitSessions.MIN_SESSION_HOURS, hc, List.headD_cons]
  rw [show (c.ts - c.ts) / 3600 + 1 / 2 = (1 / 2 : ℚ) by ring]
  simp

/-- C4 counterexample: invoked with neither a project path nor a filter,
the Claude and Codex entry points do print the structured error object,
but the process exit status is 0, not the non-zero status the claim
requires. -/
theorem claim_C4_counterexample :
    ClaudeMsgs.claude_main_gate none none =
      (ClaudeMsgs.MainOut.errorObj "Provide --project-path or --filter", 0) ∧
    CodexMsgs.codex_main_gate none none =
      (ClaudeMsgs.MainOut.errorObj "Provide --project-path or --filter", 0) := by
  exact ⟨rfl, rfl⟩

/-- C4 amended: whenever neither argument is truthy, the entry points emit
the structured error object instead of a report, and the process then
exits with status 0 (failure is signalled only through the error object,
not through the exit status). -/
theorem claim_C4_amended (pp filt : Option String) (h1 : truthy pp = false)
    (h2 : truthy filt = false) :
    ClaudeMsgs.claude_main_gate pp filt =
      (ClaudeMsgs.MainOut.errorObj "Provide --project-path or --filter", 0) ∧
    CodexMsgs.codex_main_gate pp filt =
      (ClaudeMsgs.MainOut.errorObj "Provide --project-path or --filter", 0) := by
  constructor
  · simp [ClaudeMsgs.claude_main_gate, h1, h2]
  · simp [CodexMsgs.codex_main_gate, h1, h2]

/-- C4 witness: the amended statement instantiated at an empty-string
project path and an absent filter. -/
theorem claim_C4_witness :
    ClaudeMsgs.claude_main_gate (some "") none =
      (ClaudeMsgs.MainOut.errorObj "Provide --project-path or --filter", 0) ∧
    CodexMsgs.codex_main_gate (some "") none =
      (ClaudeMsgs.MainOut.errorObj "Provide --project-path or --filter", 0) :=
  claim_C4_amended (some "") none (by decide) (by decide)

/-- C9 counterexample: a session entry with no `message` key at all (so
the content field is absent) is classified as a real prompt, because the
source defaults absent content to the empty string; the claim instead
lists an absent content field among the cases returning `False`. -/
theorem claim_C9_counterexample :
    ClaudeMsgs.is_real_prompt ⟨some "user", some "/p", none, some (0, "1970-01-01")⟩ = true := rfl

/-- C9 amended: `is_real_prompt` returns true exactly on string content
(including the empty-string default used when the message or content key
is absent) and on non-empty list content whose first element is not
tagged `tool_result`; an empty list, `None`, a dict or a number yields
false, and an entry rejected by `is_real_prompt` is never counted by the
session-file collection step. -/
theorem claim_C9_amended :
    (∀ e : ClaudeMsgs.SessEntry,
      ClaudeMsgs.is_real_prompt e = true ↔
        ((∃ s, ClaudeMsgs.contentOf e = .str s) ∨
          (∃ i rest, ClaudeMsgs.contentOf e = .arr (i :: rest) ∧
            i.jtype ≠ some "tool_result"))) ∧
    (∀ (pp : Option String) (st : List (ℚ × String) × List ℤ)
      (e : ClaudeMsgs.SessEntry), ClaudeMsgs.is_real_prompt e = false →
        ClaudeMsgs.sessStep pp st (.entry e) = st) := by
  constructor
  · intro e
    unfold ClaudeMsgs.is_real_prompt
    cases h : ClaudeMsgs.contentOf e with
    | null => simp [h]
    | str s => simp [h]
    | num q => simp [h]
    | obj => simp [h]
    | arr items =>
      cases items with
      | nil => simp [h]
      | cons i rest => simp [h]
  · intro pp st e h
    simp [ClaudeMsgs.sessStep, h]

/-- C9 witness: the amended statement applied to a tool-result entry,
which the collection step leaves uncounted. -/
theorem claim_C9_witness :
    ClaudeMsgs.sessStep none ([], [])
      (.entry ⟨some "user", some "/p", some (some (.arr [⟨some "tool_result"⟩])),
        some (7, "1970-01-01")⟩) = ([], []) :=
  claim_C9_amended.2 none ([], [])
    ⟨some "user", some "/p", some (some (.arr [⟨some "tool_result"⟩])),
      some (7, "1970-01-01")⟩ (by decide)

/-- C1 counterexample: with filter `"myproj"`, the Claude adapter selects
the stored project dir encoded from `/myproj/other` (the filter matches
inside the encoded parent component), although the basename `other` of
that identity does not contain the filter — contradicting the claimed
basename-only matching. -/
theorem claim_C1_counterexample :
    ClaudeMsgs.find_project_dirs true "/projects"
      [⟨path_to_encoded "/myproj/other", true⟩] none (some "myproj") =
      ["/projects/-myproj-other"] ∧
    strContainsCI "myproj" (basenameOf "/myproj/other") = false := by
  exact ⟨by decide, by decide⟩

/-- C1 amended: the Cursor global-storage adapter selects a session if and
only if the basename of its normalized workspace path is non-empty and
contains the filter case-insensitively; the Claude adapter instead
selects exactly the directory entries whose full encoded name contains
the filter case-insensitively, so parent path components also match. -/
theorem claim_C1_amended :
    (∀ nf ws_path : String, nf ≠ "" →
      (CursorMsgs.cursor_session_selected none (some nf) ws_path = true ↔
        ((if ws_path ≠ "" then basenameOf (normpath ws_path) else "") ≠ "" ∧
          strContainsCI nf
            (if ws_path ≠ "" then basenameOf (normpath ws_path) else "") = true))) ∧
    (∀ (nf pd : String) (entries : List ClaudeMsgs.DirEntry) (x : String), nf ≠ "" →
      (x ∈ ClaudeMsgs.find_project_dirs true pd entries none (some nf) ↔
        ∃ e ∈ entries, e.isDir = true ∧ strContainsCI nf e.name = true ∧
          x = ClaudeMsgs.pjoin pd e.name)) := by
  constructor
  · intro nf ws_path h
    simp only [CursorMsgs.cursor_session_selected, truthy]
    by_cases hw : ws_path = ""
    · subst hw
      simp [h]
    · simp [h, hw]
  · intro nf pd entries x h
    simp only [ClaudeMsgs.find_project_dirs, truthy]
    simp only [Bool.not_true, Bool.false_eq_true, if_false, if_true]
    rw [List.mem_map]
    constructor
    · rintro ⟨e, he, rfl⟩
      rw [List.mem_filter, mem_sortBy] at he
      refine ⟨e, he.1, ?_, ?_, rfl⟩ <;>
        · have h2 := he.2
          simp [h] at h2
          tauto
    · rintro ⟨e, he, hdir, hci, rfl⟩
      exact ⟨e, by rw [List.mem_filter, mem_sortBy]; exact ⟨he, by simp [h, hdir, hci]⟩, rfl⟩

/-- C1 witness: the amended statement instantiated at filter `"myproj"`;
a workspace path with basename `myproj` is selected by the Cursor
adapter, and an encoded dir name containing `myproj` only in a parent
component is selected by the Claude adapter. -/
theorem claim_C1_witness :
    CursorMsgs.cursor_session_selected none (some "myproj") "/a/MyProj/" = true ∧
    "/p/-myproj-other" ∈ ClaudeMsgs.find_project_dirs true "/p"
      [⟨"-myproj-other", true⟩] none (some "myproj") := by
  constructor
  · exact (claim_C1_amended.1 "myproj" "/a/MyProj/" (by decide)).mpr (by decide)
  · exact (claim_C1_amended.2 "myproj" "/p" [⟨"-myproj-other", true⟩]
      "/p/-myproj-other" (by decide)).mpr ⟨⟨"-myproj-other", true⟩, by decide, by decide, by decide, rfl⟩

/-- C3 counterexample: a bare numeric timestamp of 1000 (magnitude not
above `1_000_000_000_000`) is not treated as epoch-seconds: the Cursor
extractor yields nothing for it, and the Claude history adapter divides
it by 1000 unconditionally, counting epoch 1 rather than epoch 1000. -/
theorem claim_C3_counterexample :
    CursorMsgs.extract_bubble_timestamp ⟨none, none, some (.num 1000)⟩ = none ∧
    (ClaudeMsgs.collect_from_history [.entry (some "/p") (some 1000)]
      (some "/p")).1.map Prod.fst = [1] := by
  constructor
  · simp only [CursorMsgs.extract_bubble_timestamp, CursorMsgs.timingHit]
    norm_num
  · have hne : ¬ ("/p" : String) = "" := by decide
    norm_num [ClaudeMsgs.collect_from_history, ClaudeMsgs.histStep, truthy, hne]

/-- C3 amended: a bare numeric timestamp value is interpreted as epoch
milliseconds (divided by 1000) when it strictly exceeds
`1_000_000_000_000`; a value not exceeding the threshold is skipped by
the Cursor extractor (never treated as epoch-seconds), the test is
applied per individual field value within one object, and the Claude
history adapter divides every timestamp by 1000 with no magnitude
test at all. -/
theorem claim_C3_amended :
    (∀ q : ℚ, (1000000000000 : ℚ) < q →
      CursorMsgs.extract_bubble_timestamp ⟨none, none, some (.num q)⟩ =
        some (q / 1000)) ∧
    (∀ q : ℚ, q ≤ 1000000000000 →
      CursorMsgs.extract_bubble_timestamp ⟨none, none, some (.num q)⟩ = none) ∧
    (∀ q1 q2 : ℚ, q1 ≤ 1000000000000 → (1000000000000 : ℚ) < q2 →
      CursorMsgs.extract_bubble_timestamp
        ⟨none, some ⟨some (.num q1), some (.num q2), none, none⟩,
          some (.num q1)⟩ = some (q2 / 1000)) ∧
    (∀ (proj : String) (ms : ℚ), proj ≠ "" →
      (ClaudeMsgs.collect_from_history [.entry (some proj) (some ms)]
        (some proj)).1.map Prod.fst = [ms / 1000]) := by
  refine ⟨fun q hq => ?_, fun q hq => ?_, fun q1 q2 h1 h2 => ?_, fun proj ms h => ?_⟩
  · have hq0 : q ≠ 0 := by positivity
    simp [CursorMsgs.extract_bubble_timestamp, CursorMsgs.timingHit, hq0, hq]
  · simp [CursorMsgs.extract_bubble_timestamp, CursorMsgs.timingHit,
      not_lt.2 hq]
  · have hq0 : q2 ≠ 0 := by positivity
    simp [CursorMsgs.extract_bubble_timestamp, CursorMsgs.timingHit,
      CursorMsgs.numOverThreshold, not_lt.2 h1, hq0, h2]
  · simp [ClaudeMsgs.collect_from_history, ClaudeMsgs.histStep, truthy, h]

/-- C3 witness: the amended statement instantiated at the values
2000000000000 (above the threshold, divided by 1000), 1000 (below, giving
nothing), a mixed pair within one timing object, and a Claude history
entry with timestamp 5000. -/
theorem claim_C3_witness :
    CursorMsgs.extract_bubble_timestamp ⟨none, none, some (.num 2000000000000)⟩ =
      some (2000000000000 / 1000) ∧
    CursorMsgs.extract_bubble_timestamp ⟨none, none, some (.num 1000)⟩ = none ∧
    CursorMsgs.extract_bubble_timestamp
      ⟨none, some ⟨some (.num 1000), some (.num 2000000000000), none, none⟩,
        some (.num 1000)⟩ = some (2000000000000 / 1000) ∧
    (ClaudeMsgs.collect_from_history [.entry (some "/p") (some 5000)]
      (some "/p")).1.map Prod.fst = [5000 / 1000] :=
  ⟨claim_C3_amended.1 2000000000000 (by decide),
    claim_C3_amended.2.1 1000 (by decide),
    claim_C3_amended.2.2.1 1000 2000000000000 (by decide) (by decide),
    claim_C3_amended.2.2.2 "/p" 5000 (by decide)⟩


/-- C8: the claim holds for the Claude session-file adapter, whose
per-file `try/except` makes an unreadable file contribute nothing while
the remaining files are still counted; but `codex_messages.scan_sessions`
has no handler around its per-file `open`, so one unreadable rollout file
aborts the whole scan with the `IOError` instead of being skipped. This
theorem evaluates both adapters on a store whose second file is
unreadable. -/
theorem claim_C8_io_containment :
    CodexMsgs.scan_sessions true
      [⟨true, [.entry (some "session_meta") none (some "/p") none,
        .entry (some "event_msg") (some "user_message") none
          (some (5, "2026-02-01"))]⟩,
       ⟨false, []⟩,
       ⟨true, [.entry (some "session_meta") none (some "/p") none,
        .entry (some "event_msg") (some "user_message") none
          (some (9, "2026-02-01"))]⟩]
      (some "/p") none = .error "IOError" ∧
    (ClaudeMsgs.collect_from_session_files
      [⟨true, [.entry ⟨some "user", some "/p", some (some (.str "a")),
        some (5, "2026-02-01")⟩]⟩,
       ⟨false, [.entry ⟨some "user", some "/p", some (some (.str "b")),
        some (6, "2026-02-01")⟩]⟩,
       ⟨true, [.entry ⟨some "user", some "/p", some (some (.str "c")),
        some (9, "2026-02-01")⟩]⟩]
      (some "/p") []).1.map Prod.fst = [5, 9] := by
  constructor
  · rfl
  · have r5 : roundHalfEven 5 = 5 := by norm_num [roundHalfEven]
    have r9 : roundHalfEven 9 = 9 := by norm_num [roundHalfEven]
    simp only [ClaudeMsgs.collect_from_session_files, List.foldl_cons,
      List.foldl_nil, ClaudeMsgs.sessStep, ClaudeMsgs.is_real_prompt,
      ClaudeMsgs.contentOf, r5, r9]
    norm_num [List.contains]

/-- Membership in one alternate-path collection step: the step keeps the
accumulator and adds the file's session-meta `cwd` exactly when that cwd
is non-empty, differs from the requested path, and has the requested
basename. -/
theorem mem_altStep (req : String) (acc : List String)
    (f : List CodexMsgs.CodexLine) (p : String) :
    p ∈ CodexMsgs.altStep req acc f ↔
      p ∈ acc ∨ (CodexMsgs.fileMetaCwd f = some p ∧ p ≠ "" ∧ p ≠ req ∧
        basenameOf p = basenameOf req) := by
  unfold CodexMsgs.altStep
  cases h : CodexMsgs.fileMetaCwd f with
  | none => simp
  | some cwd =>
    dsimp only
    have hcond : (!(cwd == "") && (!(cwd == req) &&
        basenameOf cwd == basenameOf req)) = true ↔
        (cwd ≠ "" ∧ cwd ≠ req ∧ basenameOf cwd = basenameOf req) := by
      simp
    by_cases hc : (cwd ≠ "" ∧ cwd ≠ req ∧ basenameOf cwd = basenameOf req)
    · rw [if_pos (hcond.mpr hc)]
      simp only [List.mem_append, List.mem_singleton, Option.some_inj]
      constructor
      · rintro (hp | rfl)
        · exact Or.inl hp
        · exact Or.inr ⟨rfl, hc⟩
      · rintro (hp | ⟨rfl, _⟩)
        · exact Or.inl hp
        · exact Or.inr rfl
    · rw [if_neg (fun hb => hc (hcond.mp hb))]
      simp only [Option.some_inj]
      constructor
      · exact Or.inl
      · rintro (hp | ⟨rfl, h1, h2, h3⟩)
        · exact hp
        · exact absurd ⟨h1, h2, h3⟩ hc

/-- Membership in the alternate-path fold over all rollout files. -/
theorem mem_altFold (req : String) :
    ∀ (files : List (List CodexMsgs.CodexLine)) (acc : List String)
      (p : String),
      p ∈ files.foldl (CodexMsgs.altStep req) acc ↔
        p ∈ acc ∨ ((∃ f ∈ files, CodexMsgs.fileMetaCwd f = some p) ∧
          p ≠ "" ∧ p ≠ req ∧ basenameOf p = basenameOf req)
  | [], acc, p => by simp
  | f :: fs, acc, p => by
    rw [List.foldl_cons, mem_altFold req fs (CodexMsgs.altStep req acc f) p,
      mem_altStep]
    simp only [List.mem_cons]
    constructor
    · rintro ((hp | ⟨hm, hc⟩) | ⟨⟨g, hg, hgm⟩, hc⟩)
      · exact Or.inl hp
      · exact Or.inr ⟨⟨f, Or.inl rfl, hm⟩, hc⟩
      · exact Or.inr ⟨⟨g, Or.inr hg, hgm⟩, hc⟩
    · rintro (hp | ⟨⟨g, hg | hg, hgm⟩, hc⟩)
      · exact Or.inl (Or.inl hp)
      · exact Or.inl (Or.inr ⟨hg ▸ hgm, hc⟩)
      · exact Or.inr ⟨⟨g, hg, hgm⟩, hc⟩

/-- The alternate-path field of the Codex report equals the scan result
exactly when the daily total is zero, a project path was given, and the
scan found at least one alternate. -/
theorem codex_alt_eq (scan : CodexMsgs.ScanResult)
    (store : List (List CodexMsgs.CodexLine)) (pp : Option String) :
    (CodexMsgs.codex_main_result scan true store pp).alternate_paths =
      if (decide (scan.counted.length = 0) && truthy pp &&
          !(CodexMsgs.find_alternate_paths true store (pp.getD "")).isEmpty) =
          true
      then some (CodexMsgs.find_alternate_paths true store (pp.getD ""))
      else none := by
  unfold CodexMsgs.codex_main_result
  by_cases h1 : (decide (scan.counted.length = 0) && truthy pp) = true
  · by_cases h2 :
        (CodexMsgs.find_alternate_paths true store (pp.getD "")).isEmpty = true
    · simp [h1, h2]
    · simp only [Bool.not_eq_true] at h2
      simp [h1, h2]
  · simp only [Bool.and_eq_true, not_and_or] at h1
    rcases h1 with h1 | h1 <;>
      · simp only [Bool.not_eq_true] at h1
        simp [h1, Bool.and_eq_true, decide_eq_true_eq]
        try simp_all

/-- A strictly `strLt`-sorted list has no duplicates. -/
theorem nodup_of_pairwise_strLt {l : List String}
    (h : l.Pairwise (fun a b => strLt a b = true)) : l.Nodup :=
  h.imp fun hab => by
    intro he
    subst he
    rw [strLt_irrefl] at hab
    exact Bool.noConfusion hab

/-- C7: Codex alternate-path detection returns exactly the sorted,
duplicate-free list of stored session cwds that are non-empty, differ
from the requested path and share its basename (every stored identity is
scanned, unfiltered); `main` attaches it only when the scan counted zero
records and a concrete project path was given, and the suggestion list
changes nothing else in the report. -/
theorem claim_C7_alternates :
    (∀ (files : List (List CodexMsgs.CodexLine)) (req p : String),
      p ∈ CodexMsgs.find_alternate_paths true files req ↔
        ((∃ f ∈ files, CodexMsgs.fileMetaCwd f = some p) ∧ p ≠ "" ∧
          p ≠ req ∧ basenameOf p = basenameOf req)) ∧
    (∀ (files : List (List CodexMsgs.CodexLine)) (req : String),
      (CodexMsgs.find_alternate_paths true files req).Pairwise
        (fun a b => strLt a b = true) ∧
      (CodexMsgs.find_alternate_paths true files req).Nodup) ∧
    (∀ (scan : CodexMsgs.ScanResult)
      (store : List (List CodexMsgs.CodexLine)) (pp : Option String),
      ((CodexMsgs.codex_main_result scan true store pp).alternate_paths ≠
          none →
        scan.counted.length = 0 ∧ truthy pp = true ∧
          (CodexMsgs.codex_main_result scan true store pp).alternate_paths =
            some (CodexMsgs.find_alternate_paths true store (pp.getD ""))) ∧
      (CodexMsgs.codex_main_result scan true store pp).counted =
        scan.counted ∧
      (CodexMsgs.codex_main_result scan true store pp).timestamps =
        scan.timestamps ∧
      (CodexMsgs.codex_main_result scan true store pp).sessions_found =
        scan.sessions_found ∧
      (CodexMsgs.codex_main_result scan true store pp).total_user_messages =
        scan.counted.length) := by
  have hmem : ∀ (files : List (List CodexMsgs.CodexLine)) (req p : String),
      p ∈ CodexMsgs.find_alternate_paths true files req ↔
        ((∃ f ∈ files, CodexMsgs.fileMetaCwd f = some p) ∧ p ≠ "" ∧
          p ≠ req ∧ basenameOf p = basenameOf req) := by
    intro files req p
    unfold CodexMsgs.find_alternate_paths
    rw [if_neg (by simp), mem_sortedDedup, mem_altFold]
    simp
  refine ⟨hmem, fun files req => ?_, fun scan store pp => ?_⟩
  · have hs : (CodexMsgs.find_alternate_paths true files req).Pairwise
        (fun a b => strLt a b = true) := by
      unfold CodexMsgs.find_alternate_paths
      rw [if_neg (by simp)]
      exact sorted_sortedDedup _
    exact ⟨hs, nodup_of_pairwise_strLt hs⟩
  · refine ⟨?_, rfl, rfl, rfl, rfl⟩
    intro halt
    rw [codex_alt_eq] at halt
    by_cases hcond : (decide (scan.counted.length = 0) && truthy pp &&
        !(CodexMsgs.find_alternate_paths true store (pp.getD "")).isEmpty) =
        true
    · rw [Bool.and_eq_true, Bool.and_eq_true] at hcond
      refine ⟨by simpa using hcond.1.1, hcond.1.2, ?_⟩
      rw [codex_alt_eq, if_pos (by rw [Bool.and_eq_true, Bool.and_eq_true]; exact hcond)]
    · rw [if_neg hcond] at halt
      exact absurd rfl halt

/-- C7 witness: the membership characterization instantiated at a store
holding an identity for `/new/loc/myproj` while `/old/loc/myproj` is
requested: the moved path is suggested. -/
theorem claim_C7_witness :
    "/new/loc/myproj" ∈ CodexMsgs.find_alternate_paths true
      [[.entry (some "session_meta") none (some "/new/loc/myproj") none]]
      "/old/loc/myproj" :=
  (claim_C7_alternates.1
      [[.entry (some "session_meta") none (some "/new/loc/myproj") none]]
      "/old/loc/myproj" "/new/loc/myproj").mpr (by decide)


/-- Bridge between `List.contains` on the seen set and membership. -/
theorem contains_int_iff (l : List ℤ) (x : ℤ) :
    l.contains x = true ↔ x ∈ l := by
  simp [List.contains]

theorem roundsOf_append (a b : List (ℚ × String)) :
    roundsOf (a ++ b) = roundsOf a ++ roundsOf b := List.map_append _ a b

theorem mergeExtends_rfl (st : List (ℚ × String) × List ℤ) :
    MergeExtends st st :=
  ⟨[], by simp, fun _ hr => hr, List.Pairwise.nil, by simp [roundsOf]⟩

theorem mergeExtends_trans {a b c : List (ℚ × String) × List ℤ}
    (h1 : MergeExtends a b) (h2 : MergeExtends b c) : MergeExtends a c := by
  obtain ⟨n1, e1, s1, d1, f1⟩ := h1
  obtain ⟨n2, e2, s2, d2, f2⟩ := h2
  refine ⟨n1 ++ n2, by rw [e2, e1, List.append_assoc],
    fun r hr => s2 r (s1 r hr), ?_, ?_⟩
  · rw [roundsOf_append, List.nodup_append]
    exact ⟨d1, d2, fun r hr1 hr2 => (f2 r hr2).1 ((f1 r hr1).2)⟩
  · intro r hr
    rw [roundsOf_append, List.mem_append] at hr
    rcases hr with hr | hr
    · exact ⟨(f1 r hr).1, s2 r (f1 r hr).2⟩
    · exact ⟨fun hmem => (f2 r hr).1 (s1 r hmem), (f2 r hr).2⟩

/-- Dichotomy of one fallback-collection step: it either leaves the state
unchanged, or the line is an entry that is a real prompt with a parsed
timestamp whose rounded epoch is not yet seen, in which case exactly that
record is counted and exactly that rounded epoch enters the seen set. -/
theorem sessStep_cases (pp : Option String)
    (st : List (ℚ × String) × List ℤ) (l : ClaudeMsgs.SessLine) :
    ClaudeMsgs.sessStep pp st l = st ∨
      ∃ e epoch date, l = .entry e ∧ e.tsParse = some (epoch, date) ∧
        ClaudeMsgs.is_real_prompt e = true ∧
        st.2.contains (roundHalfEven epoch) = false ∧
        ClaudeMsgs.sessStep pp st l =
          (st.1 ++ [(epoch, date)], st.2 ++ [roundHalfEven epoch]) := by
  cases l with
  | bad => exact Or.inl rfl
  | entry e =>
    simp only [ClaudeMsgs.sessStep]
    split
    · exact Or.inl rfl
    split
    · exact Or.inl rfl
    split
    · exact Or.inl rfl
    next hreal =>
    cases ht : e.tsParse with
    | none => exact Or.inl rfl
    | some pr =>
      obtain ⟨epoch, date⟩ := pr
      dsimp only
      split
      · exact Or.inl rfl
      next hcont =>
      refine Or.inr ⟨e, epoch, date, rfl, ht, ?_, ?_, rfl⟩
      · simpa using hreal
      · simpa using hcont

/-- A step that counts a record with an unseen rounded epoch extends the
state in the `MergeExtends` sense. -/
theorem append_extends (st : List (ℚ × String) × List ℤ) (epoch : ℚ)
    (date : String) (hcont : st.2.contains (roundHalfEven epoch) = false) :
    MergeExtends st (st.1 ++ [(epoch, date)], st.2 ++ [roundHalfEven epoch]) := by
  refine ⟨[(epoch, date)], rfl, fun r hr => by simp [hr], by simp [roundsOf], ?_⟩
  intro r hr
  simp only [roundsOf, List.map_cons, List.map_nil, List.mem_singleton] at hr
  subst hr
  refine ⟨fun hmem => ?_, by simp⟩
  rw [← contains_int_iff] at hmem
  rw [hmem] at hcont
  exact Bool.noConfusion hcont

theorem sessStep_extends (pp : Option String)
    (st : List (ℚ × String) × List ℤ) (l : ClaudeMsgs.SessLine) :
    MergeExtends st (ClaudeMsgs.sessStep pp st l) := by
  rcases sessStep_cases pp st l with h | ⟨e, epoch, date, _, _, _, hcont, h⟩
  · rw [h]; exact mergeExtends_rfl st
  · rw [h]; exact append_extends st epoch date hcont

theorem foldl_sessStep_extends (pp : Option String) :
    ∀ (lines : List ClaudeMsgs.SessLine) (st : List (ℚ × String) × List ℤ),
      MergeExtends st (lines.foldl (ClaudeMsgs.sessStep pp) st)
  | [], st => mergeExtends_rfl st
  | l :: ls, st =>
    mergeExtends_trans (sessStep_extends pp st l)
      (foldl_sessStep_extends pp ls (ClaudeMsgs.sessStep pp st l))

theorem files_fold_extends (pp : Option String) :
    ∀ (files : List ClaudeMsgs.SessFile) (st : List (ℚ × String) × List ℤ),
      MergeExtends st (files.foldl
        (fun st f => if f.readable then
          f.lines.foldl (ClaudeMsgs.sessStep pp) st else st) st)
  | [], st => mergeExtends_rfl st
  | f :: fs, st => by
    rw [List.foldl_cons]
    refine mergeExtends_trans ?_ (files_fold_extends pp fs _)
    by_cases hr : f.readable = true
    · rw [if_pos hr]; exact foldl_sessStep_extends pp f.lines st
    · rw [if_neg hr]; exact mergeExtends_rfl st

theorem collect_sess_extends (pp : Option String)
    (files : List ClaudeMsgs.SessFile) (seen : List ℤ) :
    MergeExtends ([], seen)
      (ClaudeMsgs.collect_from_session_files files pp seen) :=
  files_fold_extends pp files ([], seen)

/-- In the primary history collection, the seen set is exactly the list
of rounded epochs of the counted records, in order. -/
theorem histFold_seen (pp : String) :
    ∀ (lines : List ClaudeMsgs.HistLine)
      (st : List (ℚ × String) × List ℤ), st.2 = roundsOf st.1 →
      (lines.foldl (ClaudeMsgs.histStep pp) st).2 =
        roundsOf (lines.foldl (ClaudeMsgs.histStep pp) st).1
  | [], _, h => h
  | l :: ls, st, h => by
    rw [List.foldl_cons]
    refine histFold_seen pp ls (ClaudeMsgs.histStep pp st l) ?_
    cases l with
    | bad => exact h
    | entry proj ts =>
      simp only [ClaudeMsgs.histStep]
      split
      · exact h
      cases ts with
      | none => exact h
      | some ms =>
        dsimp only
        rw [roundsOf_append, ← h]
        rfl

theorem hist_seen_eq (lines : List ClaudeMsgs.HistLine) (pp : Option String) :
    (ClaudeMsgs.collect_from_history lines pp).2 =
      roundsOf (ClaudeMsgs.collect_from_history lines pp).1 := by
  unfold ClaudeMsgs.collect_from_history
  split
  · rfl
  · exact histFold_seen (pp.getD "") lines ([], []) rfl

/-- C2 counterexample: when the primary history stream itself contains
two records with the same rounded epoch (here, two entries with timestamp
5000 ms, rounding to epoch 5), both are counted unconditionally, so the
rounded epoch 5 contributes two counts to the merged daily totals —
refuting the claim that no rounded epoch contributes more than one
count. -/
theorem claim_C2_counterexample :
    (roundsOf ((ClaudeMsgs.collect_from_history
        [.entry (some "/p") (some 5000), .entry (some "/p") (some 5000)]
        (some "/p")).1 ++
      (ClaudeMsgs.collect_from_session_files [] (some "/p")
        (ClaudeMsgs.collect_from_history
          [.entry (some "/p") (some 5000), .entry (some "/p") (some 5000)]
          (some "/p")).2).1)).count 5 = 2 := by
  have hne : ¬ ("/p" : String) = "" := by decide
  have r5 : roundHalfEven (5000 / 1000) = 5 := by norm_num [roundHalfEven]
  simp only [ClaudeMsgs.collect_from_history,
    ClaudeMsgs.collect_from_session_files, truthy, List.foldl_nil,
    Bool.not_not, beq_iff_eq, hne, if_false]
  norm_num [ClaudeMsgs.histStep, r5, roundsOf, List.count_cons]
  norm_num [show roundHalfEven 5 = 5 from by norm_num [roundHalfEven]]

/-- C2 amended: each fallback record is counted only if it is a real
prompt with a parseable timestamp whose rounded epoch is not yet in the
seen set, and the rounded epoch is inserted on inclusion; consequently
the fallback stream contributes at most one count per rounded epoch and
never an epoch the primary stream already counted — but an epoch
duplicated inside the primary stream itself is counted once per primary
record. -/
theorem claim_C2_amended :
    (∀ (pp : Option String) (st : List (ℚ × String) × List ℤ)
      (l : ClaudeMsgs.SessLine),
      ClaudeMsgs.sessStep pp st l = st ∨
        ∃ e epoch date, l = .entry e ∧ e.tsParse = some (epoch, date) ∧
          ClaudeMsgs.is_real_prompt e = true ∧
          st.2.contains (roundHalfEven epoch) = false ∧
          ClaudeMsgs.sessStep pp st l =
            (st.1 ++ [(epoch, date)], st.2 ++ [roundHalfEven epoch])) ∧
    (∀ (hist : List ClaudeMsgs.HistLine) (hp : Option String)
      (files : List ClaudeMsgs.SessFile) (pp : Option String),
      (roundsOf (ClaudeMsgs.collect_from_session_files files pp
        (ClaudeMsgs.collect_from_history hist hp).2).1).Nodup ∧
      ∀ r ∈ roundsOf (ClaudeMsgs.collect_from_session_files files pp
          (ClaudeMsgs.collect_from_history hist hp).2).1,
        r ∉ roundsOf (ClaudeMsgs.collect_from_history hist hp).1) := by
  refine ⟨sessStep_cases, fun hist hp files pp => ?_⟩
  obtain ⟨new, e1, _, d1, f1⟩ :=
    collect_sess_extends pp files (ClaudeMsgs.collect_from_history hist hp).2
  rw [e1, List.nil_append]
  refine ⟨d1, fun r hr => ?_⟩
  rw [← hist_seen_eq]
  exact (f1 r hr).1

/-- C2 witness: the amended invariant instantiated at a primary history
with one record and a fallback store that reports the same rounded epoch
(the fallback contribution list has pairwise-distinct rounded epochs,
none of which the primary already counted). -/
theorem claim_C2_witness :
    (roundsOf (ClaudeMsgs.collect_from_session_files
      [⟨true, [.entry ⟨some "user", some "/p", some (some (.str "x")),
        some (5, "1970-01-01")⟩]⟩] (some "/p")
      (ClaudeMsgs.collect_from_history [.entry (some "/p") (some 5000)]
        (some "/p")).2).1).Nodup ∧
    ∀ r ∈ roundsOf (ClaudeMsgs.collect_from_session_files
        [⟨true, [.entry ⟨some "user", some "/p", some (some (.str "x")),
          some (5, "1970-01-01")⟩]⟩] (some "/p")
        (ClaudeMsgs.collect_from_history [.entry (some "/p") (some 5000)]
          (some "/p")).2).1,
      r ∉ roundsOf (ClaudeMsgs.collect_from_history
        [.entry (some "/p") (some 5000)] (some "/p")).1 :=
  claim_C2_amended.2 [.entry (some "/p") (some 5000)] (some "/p")
    [⟨true, [.entry ⟨some "user", some "/p", some (some (.str "x")),
      some (5, "1970-01-01")⟩]⟩] (some "/p")


/-- C10 witness: the partition property instantiated at a concrete
single-commit list. -/
theorem claim_C10_witness :
    (GitSessions.detect_sessions [⟨"a", 0, "m"⟩]).flatten = [⟨"a", 0, "m"⟩] ∧
    ∀ s ∈ GitSessions.detect_sessions [⟨"a", 0, "m"⟩], s ≠ [] :=
  claim_C10_partition [⟨"a", 0, "m"⟩]

end AgentSkills
